import Mathlib

/-!
Verification of the cellrank repository core utilities against their
natural-language specification.

The repository snapshot contains only the test-suite (`tests/test_utils.py`)
and two example scripts; the implementation modules
(`cellrank/pl/_utils.py`, `cellrank/_utils/_utils.py`,
`cellrank/_utils/_parallelize.py`) are not part of the snapshot.  All
definitions below are therefore modelled from the specification, with the
concrete behaviour pinned by the repository's own tests wherever the two
disagree.  Python object identity is modelled by tagging every model /
callback object with a numeric object id (`oid`); copying a model allocates
a fresh id from a counter threaded through resolution, while callbacks are
never copied (the tests assert `is`-identity for resolved callbacks).
-/

instance {ε α : Type} [DecidableEq ε] [DecidableEq α] : DecidableEq (Except ε α) := fun a b =>
  match a, b with
  | .ok x, .ok y =>
      if h : x = y then .isTrue (by rw [h])
      else .isFalse (by intro hc; cases hc; exact h rfl)
  | .error x, .error y =>
      if h : x = y then .isTrue (by rw [h])
      else .isFalse (by intro hc; cases hc; exact h rfl)
  | .ok _, .error _ => .isFalse (by intro hc; cases hc)
  | .error _, .ok _ => .isFalse (by intro hc; cases hc)

/-- Association-list lookup of `k`, falling back to the reserved wildcard
key `"*"` when `k` itself is absent.  Models the gene/lineage-level wildcard
fallback of the model/callback specification. -/
def wildcardLookup {α : Type} (entries : List (String × α)) (k : String) : Option α :=
  match entries.lookup k with
  | some v => some v
  | none => entries.lookup "*"

theorem lookup_mem {α : Type} {es : List (String × α)} {k : String} {v : α}
    (h : es.lookup k = some v) : (k, v) ∈ es := by
  induction es with
  | nil => simp [List.lookup] at h
  | cons p rest ih =>
    rw [List.lookup] at h
    by_cases hk : (k == p.1) = true
    · have hkk : k = p.1 := by simpa using hk
      simp only [hk] at h
      cases h
      rw [hkk, Prod.mk.eta]
      exact List.mem_cons_self p rest
    · rw [Bool.not_eq_true] at hk
      simp only [hk] at h
      exact List.mem_cons_of_mem _ (ih h)

/-- A regression model instance: `cls` is the Python class of the object
(`type(m)`), `oid` its object identity.  Modelled from the spec: models are
opaque values that the resolution engine only copies. -/
structure ModelObj where
  cls : Nat
  oid : Nat
deriving DecidableEq, Repr

/-- One gene's entry in a model specification: either a single model
(broadcast over all lineages) or a lineage-to-model mapping that may
contain the wildcard key `"*"`. -/
inductive LinSpec where
  | model (m : ModelObj)
  | dict (entries : List (String × ModelObj))
deriving DecidableEq, Repr

/-- A model specification: a single model broadcast to every
(gene, lineage) pair, or a gene-level mapping (possibly with the wildcard
key `"*"`) whose values are `LinSpec`s.  Modelled from the spec, §4.5. -/
inductive ModelSpec where
  | single (m : ModelObj)
  | dict (entries : List (String × LinSpec))
deriving DecidableEq, Repr

/-- The resolved gene-to-lineage-to-model grid. -/
abbrev ModelGrid := List (String × List (String × ModelObj))

/-- Broadcast one model over the requested lineages, giving every cell an
independent copy (a fresh `oid` drawn from the counter `c`). -/
def broadcastRow (m : ModelObj) (lineages : List String) (c : Nat) :
    List (String × ModelObj) × Nat :=
  match lineages with
  | [] => ([], c)
  | l :: rest =>
    let tail := broadcastRow m rest (c + 1)
    ((l, ⟨m.cls, c⟩) :: tail.1, tail.2)

/-- Resolve one gene's lineage dictionary over the requested lineages,
using the wildcard entry for lineages not listed; every cell receives an
independent copy of the looked-up model.  Fails when a requested lineage
has neither an explicit entry nor a wildcard fallback. -/
def dictRow (entries : List (String × ModelObj)) (lineages : List String) (c : Nat) :
    Except String (List (String × ModelObj) × Nat) :=
  match lineages with
  | [] => .ok ([], c)
  | l :: rest =>
    match wildcardLookup entries l with
    | some m =>
      match dictRow entries rest (c + 1) with
      | .ok tail => .ok ((l, ⟨m.cls, c⟩) :: tail.1, tail.2)
      | .error e => .error e
    | none => .error "No options were specified for all lineages"

/-- Resolve a single gene entry of the specification onto the requested
lineages. -/
def resolveLin (ls : LinSpec) (lineages : List String) (c : Nat) :
    Except String (List (String × ModelObj) × Nat) :=
  match ls with
  | .model m => .ok (broadcastRow m lineages c)
  | .dict entries => dictRow entries lineages c

/-- Resolve a gene-level dictionary specification over the requested genes,
using the gene-level wildcard for genes not listed and failing when a
requested gene has neither an entry nor a wildcard fallback. -/
def resolveGenes (entries : List (String × LinSpec)) (genes lineages : List String) (c : Nat) :
    Except String (ModelGrid × Nat) :=
  match genes with
  | [] => .ok ([], c)
  | g :: rest =>
    match wildcardLookup entries g with
    | some ls =>
      match resolveLin ls lineages c with
      | .ok row =>
        match resolveGenes entries rest lineages row.2 with
        | .ok grid => .ok ((g, row.1) :: grid.1, grid.2)
        | .error e => .error e
      | .error e => .error e
    | none => .error "No options were specified for genes"

/-- Broadcast a single model over all requested genes and lineages, each
cell an independent copy. -/
def resolveSingle (m : ModelObj) (genes lineages : List String) (c : Nat) : ModelGrid × Nat :=
  match genes with
  | [] => ([], c)
  | g :: rest =>
    let row := broadcastRow m lineages c
    let grid := resolveSingle m rest lineages row.2
    ((g, row.1) :: grid.1, grid.2)

/-- Modelled from the spec: `_create_models` from `cellrank.pl._utils`
(implementation absent from the snapshot; behaviour pinned by
`TestCreateModels` in `tests/test_utils.py`).  Resolves a model
specification onto the full genes-by-lineages grid; every cell receives an
independent copy of the specified model (fresh `oid` from the counter `c`).
Empty gene / lineage selections are rejected first. -/
def _create_models (spec : ModelSpec) (genes lineages : List String) (c : Nat) :
    Except String (ModelGrid × Nat) :=
  if genes = [] then .error "No genes have been selected"
  else if lineages = [] then .error "No lineages have been selected"
  else
    match spec with
    | .single m => .ok (resolveSingle m genes lineages c)
    | .dict entries => resolveGenes entries genes lineages c

/-- A gene entry of the spec covers all requested lineages. -/
def linCovers (ls : LinSpec) (lineages : List String) : Bool :=
  match ls with
  | .model _ => true
  | .dict entries => lineages.all (fun l => (wildcardLookup entries l).isSome)

/-- A model specification is valid for the requested genes and lineages:
every gene resolves (directly or through the wildcard) and its entry covers
every requested lineage. -/
def specCovers (spec : ModelSpec) (genes lineages : List String) : Bool :=
  match spec with
  | .single _ => true
  | .dict entries =>
    genes.all (fun g =>
      match wildcardLookup entries g with
      | some ls => linCovers ls lineages
      | none => false)

/-- The object ids of all cells of a resolved grid, row by row. -/
def gridOids (grid : ModelGrid) : List Nat :=
  (grid.map (fun r => r.2.map (fun p => p.2.oid))).flatten

theorem broadcastRow_spec (m : ModelObj) :
    ∀ (lineages : List String) (c : Nat),
      (broadcastRow m lineages c).2 = c + lineages.length ∧
      (broadcastRow m lineages c).1.map Prod.fst = lineages ∧
      (broadcastRow m lineages c).1.map (fun p => p.2.oid) = List.range' c lineages.length := by
  intro lineages
  induction lineages with
  | nil => intro c; simp [broadcastRow]
  | cons l rest ih =>
    intro c
    obtain ⟨h2, h1, h3⟩ := ih (c + 1)
    refine ⟨?_, ?_, ?_⟩
    · simp only [broadcastRow, List.length_cons]
      rw [h2]
      omega
    · simp only [broadcastRow, List.map_cons]
      rw [h1]
    · simp only [broadcastRow, List.map_cons, List.length_cons, List.range'_succ]
      rw [h3]

theorem dictRow_spec (entries : List (String × ModelObj)) :
    ∀ (lineages : List String) (c : Nat),
      lineages.all (fun l => (wildcardLookup entries l).isSome) = true →
      ∃ row, dictRow entries lineages c = .ok (row, c + lineages.length) ∧
        row.map Prod.fst = lineages ∧
        row.map (fun p => p.2.oid) = List.range' c lineages.length := by
  intro lineages
  induction lineages with
  | nil => intro c _; exact ⟨[], by simp [dictRow], by simp, by simp⟩
  | cons l rest ih =>
    intro c hall
    rw [List.all_cons, Bool.and_eq_true] at hall
    obtain ⟨hl, hrest⟩ := hall
    obtain ⟨m, hm⟩ := Option.isSome_iff_exists.mp hl
    obtain ⟨row, hrow, hfst, hoid⟩ := ih (c + 1) hrest
    refine ⟨(l, ⟨m.cls, c⟩) :: row, ?_, ?_, ?_⟩
    · simp only [dictRow, hm, hrow, List.length_cons]
      have : c + 1 + rest.length = c + (rest.length + 1) := by omega
      rw [this]
    · simp only [List.map_cons, hfst]
    · simp only [List.map_cons, hoid, List.length_cons, List.range'_succ]

theorem resolveLin_spec (ls : LinSpec) (lineages : List String) (c : Nat)
    (h : linCovers ls lineages = true) :
    ∃ row, resolveLin ls lineages c = .ok (row, c + lineages.length) ∧
      row.map Prod.fst = lineages ∧
      row.map (fun p => p.2.oid) = List.range' c lineages.length := by
  cases ls with
  | model m =>
    obtain ⟨h2, h1, h3⟩ := broadcastRow_spec m lineages c
    exact ⟨(broadcastRow m lineages c).1, by simp [resolveLin, ← h2], h1, h3⟩
  | dict entries => exact dictRow_spec entries lineages c h

theorem resolveGenes_spec (entries : List (String × LinSpec)) (lineages : List String) :
    ∀ (genes : List String) (c : Nat),
      specCovers (.dict entries) genes lineages = true →
      ∃ grid, resolveGenes entries genes lineages c =
          .ok (grid, c + genes.length * lineages.length) ∧
        grid.map Prod.fst = genes ∧
        (∀ r ∈ grid, r.2.map Prod.fst = lineages) ∧
        gridOids grid = List.range' c (genes.length * lineages.length) := by
  intro genes
  induction genes with
  | nil => intro c _; exact ⟨[], by simp [resolveGenes], by simp, by simp, by simp [gridOids]⟩
  | cons g rest ih =>
    intro c hall
    simp only [specCovers, List.all_cons, Bool.and_eq_true] at hall
    obtain ⟨hg, hrest⟩ := hall
    have hlook : ∃ ls, wildcardLookup entries g = some ls ∧ linCovers ls lineages = true := by
      cases hw : wildcardLookup entries g with
      | none => rw [hw] at hg; exact absurd hg (by simp)
      | some ls => rw [hw] at hg; exact ⟨ls, rfl, hg⟩
    obtain ⟨ls, hls, hcov⟩ := hlook
    obtain ⟨row, hrow, hrfst, hroid⟩ := resolveLin_spec ls lineages c hcov
    obtain ⟨grid, hgrid, hgfst, hglin, hgoid⟩ := ih (c + lineages.length) (by
      simpa only [specCovers] using hrest)
    refine ⟨(g, row) :: grid, ?_, ?_, ?_, ?_⟩
    · simp only [resolveGenes, hls, hrow, hgrid, List.length_cons]
      have : c + lineages.length + rest.length * lineages.length =
          c + (rest.length + 1) * lineages.length := by ring
      rw [this]
    · simp only [List.map_cons, hgfst]
    · intro r hr
      rcases List.mem_cons.mp hr with h | h
      · rw [h]; exact hrfst
      · exact hglin r h
    · simp only [gridOids, List.map_cons, List.flatten_cons]
      have happ := List.range'_append c lineages.length (rest.length * lineages.length) 1
      rw [one_mul] at happ
      simp only [gridOids] at hgoid
      rw [hroid, hgoid, happ, List.length_cons]
      have : rest.length * lineages.length + lineages.length =
          (rest.length + 1) * lineages.length := by ring
      rw [this]

theorem resolveSingle_spec (m : ModelObj) (lineages : List String) :
    ∀ (genes : List String) (c : Nat),
      (resolveSingle m genes lineages c).2 = c + genes.length * lineages.length ∧
      (resolveSingle m genes lineages c).1.map Prod.fst = genes ∧
      (∀ r ∈ (resolveSingle m genes lineages c).1, r.2.map Prod.fst = lineages) ∧
      gridOids (resolveSingle m genes lineages c).1 =
        List.range' c (genes.length * lineages.length) := by
  intro genes
  induction genes with
  | nil => intro c; exact ⟨by simp [resolveSingle], by simp [resolveSingle],
      by simp [resolveSingle], by simp [resolveSingle, gridOids]⟩
  | cons g rest ih =>
    intro c
    obtain ⟨hb2, hb1, hb3⟩ := broadcastRow_spec m lineages c
    obtain ⟨h2, h1, hlin, hoid⟩ := ih (c + lineages.length)
    refine ⟨?_, ?_, ?_, ?_⟩
    · simp only [resolveSingle, List.length_cons]
      rw [hb2, h2]
      ring
    · simp only [resolveSingle, List.map_cons]
      rw [hb2, h1]
    · intro r hr
      simp only [resolveSingle] at hr
      rcases List.mem_cons.mp hr with h | h
      · rw [h]; exact hb1
      · rw [hb2] at h
        exact hlin r h
    · simp only [resolveSingle, gridOids, List.map_cons, List.flatten_cons, List.length_cons]
      have happ := List.range'_append c lineages.length (rest.length * lineages.length) 1
      rw [one_mul] at happ
      simp only [gridOids] at hoid
      rw [hb3, hb2, hoid, happ]
      have : rest.length * lineages.length + lineages.length =
          (rest.length + 1) * lineages.length := by ring
      rw [this]

/-- C1: for every non-empty gene list, every non-empty lineage list and every
valid model specification, `_create_models` returns a grid whose keys are
exactly the requested genes, each row keyed by exactly the requested
lineages, and all cells hold pairwise non-identical (freshly copied, hence
non-aliased) model instances, even when the specification aliased one model
object to many keys. -/
theorem create_models_covers_and_no_aliasing
    (spec : ModelSpec) (genes lineages : List String) (c : Nat)
    (hg : genes ≠ []) (hl : lineages ≠ [])
    (hv : specCovers spec genes lineages = true) :
    ∃ grid cEnd, _create_models spec genes lineages c = .ok (grid, cEnd) ∧
      grid.map Prod.fst = genes ∧
      (∀ r ∈ grid, r.2.map Prod.fst = lineages) ∧
      (gridOids grid).Nodup := by
  cases spec with
  | single m =>
    obtain ⟨h2, h1, hlin, hoid⟩ := resolveSingle_spec m lineages genes c
    refine ⟨(resolveSingle m genes lineages c).1, (resolveSingle m genes lineages c).2, ?_, h1, hlin, ?_⟩
    · simp [_create_models, hg, hl]
    · rw [hoid]
      exact List.nodup_range' c (genes.length * lineages.length)
  | dict entries =>
    obtain ⟨grid, hgrid, h1, hlin, hoid⟩ := resolveGenes_spec entries lineages genes c hv
    refine ⟨grid, c + genes.length * lineages.length, ?_, h1, hlin, ?_⟩
    · simp [_create_models, hg, hl, hgrid]
    · rw [hoid]
      exact List.nodup_range' c (genes.length * lineages.length)

/-- Witness for C1: a single model aliased to all four cells of a 2-by-2
grid still resolves to four pairwise distinct instances. -/
theorem create_models_covers_and_no_aliasing_witness :
    ∃ grid cEnd,
      _create_models (.single ⟨7, 0⟩) ["foo", "bar"] ["quas", "wex"] 1 = .ok (grid, cEnd) ∧
      grid.map Prod.fst = ["foo", "bar"] ∧
      (∀ r ∈ grid, r.2.map Prod.fst = ["quas", "wex"]) ∧
      (gridOids grid).Nodup :=
  create_models_covers_and_no_aliasing (.single ⟨7, 0⟩) ["foo", "bar"] ["quas", "wex"] 1
    (by decide) (by decide) (by decide)

theorem wildcardLookup_mem {α : Type} {entries : List (String × α)} {k : String} {v : α}
    (h : wildcardLookup entries k = some v) : ∃ k2, (k2, v) ∈ entries := by
  unfold wildcardLookup at h
  cases hl : entries.lookup k with
  | some w => rw [hl] at h; cases h; exact ⟨k, lookup_mem hl⟩
  | none => rw [hl] at h; exact ⟨"*", lookup_mem h⟩

/-- A preparation callback: an opaque callable, identified by its Python
object id. -/
structure CallbackObj where
  oid : Nat
deriving DecidableEq, Repr

/-- Modelled from the spec: the built-in default callback
(`_default_model_callback` from `cellrank.pl._utils`, implementation absent
from the snapshot); it only prepares the model. -/
def _default_model_callback : CallbackObj := ⟨0⟩

/-- One gene's entry in a callback specification: Python `None` (use the
default callback), a single callable broadcast over all lineages, or a
lineage-level mapping whose values may again be `None`. -/
inductive CbLinSpec where
  | default
  | cb (f : CallbackObj)
  | dict (entries : List (String × Option CallbackObj))
deriving DecidableEq, Repr

/-- A callback specification, polymorphic like the model specification and
additionally admitting `None` (mapped to the built-in default callback). -/
inductive CallbackSpec where
  | default
  | cb (f : CallbackObj)
  | dict (entries : List (String × CbLinSpec))
deriving DecidableEq, Repr

/-- The resolved gene-to-lineage-to-callback grid. -/
abbrev CallbackGrid := List (String × List (String × CallbackObj))

/-- Resolve one gene's callback entry over the requested lineages.
Lineages without an explicit entry fall back to the lineage wildcard and
then to the default callback; the cells hold the source callback objects
themselves, never copies. -/
def resolveCbLin (ls : CbLinSpec) (lineages : List String) : List (String × CallbackObj) :=
  match ls with
  | .default => lineages.map (fun l => (l, _default_model_callback))
  | .cb f => lineages.map (fun l => (l, f))
  | .dict entries =>
    lineages.map (fun l =>
      (l, match wildcardLookup entries l with
          | some (some f) => f
          | some none => _default_model_callback
          | none => _default_model_callback))

/-- Resolve the callback entry of one gene; genes without an explicit entry
fall back to the gene wildcard and then to the default callback. -/
def resolveCbGene (spec : CallbackSpec) (g : String) (lineages : List String) :
    List (String × CallbackObj) :=
  match spec with
  | .default => resolveCbLin .default lineages
  | .cb f => resolveCbLin (.cb f) lineages
  | .dict entries =>
    match wildcardLookup entries g with
    | some ls => resolveCbLin ls lineages
    | none => resolveCbLin .default lineages

/-- Modelled from the spec: `_create_callbacks` from `cellrank.pl._utils`
(implementation absent from the snapshot; behaviour pinned by
`TestCreateCallbacks` in `tests/test_utils.py`).  Resolves a callback
specification onto the full genes-by-lineages grid.  As the tests assert
with `is`-identity, the resolved cells hold the source callback objects
themselves (callbacks are not copied), and genes or lineages missing from
the specification fall back to the built-in default callback instead of
raising.  The runtime sanity check probes the live dataset and is outside
this pure resolution model. -/
def _create_callbacks (spec : CallbackSpec) (genes lineages : List String) :
    Except String CallbackGrid :=
  if genes = [] then .error "No genes have been selected"
  else if lineages = [] then .error "No lineages have been selected"
  else .ok (genes.map (fun g => (g, resolveCbGene spec g lineages)))

/-- The callback objects that occur anywhere in a gene entry of a callback
specification. -/
def cbLinCallbacks : CbLinSpec → List CallbackObj
  | .default => []
  | .cb f => [f]
  | .dict entries => entries.filterMap (fun p => p.2)

/-- The callback objects that occur anywhere in a callback specification. -/
def cbSpecCallbacks : CallbackSpec → List CallbackObj
  | .default => []
  | .cb f => [f]
  | .dict entries => (entries.map (fun p => cbLinCallbacks p.2)).flatten

/-- Cell access in a resolved callback grid. -/
def gridCell (grid : CallbackGrid) (g l : String) : Option CallbackObj :=
  (grid.lookup g).bind (fun row => row.lookup l)

/-- C2 counterexample: the claim that `_create_callbacks` gives every grid
cell a distinct instance of the source callback is false.  Aliasing one
callback object to the two cells (foo, baz) and (bar, baz) resolves both
cells to the identical object (object id 5), which is also identical to the
source callback itself. -/
theorem create_callbacks_shared_instance_cex :
    ∃ grid, _create_callbacks (.cb ⟨5⟩) ["foo", "bar"] ["baz"] = .ok grid ∧
      gridCell grid "foo" "baz" = some ⟨5⟩ ∧
      gridCell grid "bar" "baz" = some ⟨5⟩ :=
  ⟨[("foo", [("baz", ⟨5⟩)]), ("bar", [("baz", ⟨5⟩)])], by decide, by decide, by decide⟩

theorem resolveCbLin_provenance (ls : CbLinSpec) (lineages : List String) :
    ∀ p ∈ resolveCbLin ls lineages,
      p.2 = _default_model_callback ∨ p.2 ∈ cbLinCallbacks ls := by
  intro p hp
  cases ls with
  | default =>
    obtain ⟨l, _, rfl⟩ := List.mem_map.mp hp
    exact Or.inl rfl
  | cb f =>
    obtain ⟨l, _, rfl⟩ := List.mem_map.mp hp
    exact Or.inr (by simp [cbLinCallbacks])
  | dict entries =>
    obtain ⟨l, _, rfl⟩ := List.mem_map.mp hp
    cases hw : wildcardLookup entries l with
    | none => simp [hw]
    | some v =>
      cases v with
      | none => simp [hw]
      | some f =>
        right
        simp only [hw]
        obtain ⟨k2, hmem⟩ := wildcardLookup_mem hw
        simp only [cbLinCallbacks, List.mem_filterMap]
        exact ⟨(k2, some f), hmem, rfl⟩

/-- C2 amended: every resolved grid cell holds, by identity, either the
built-in default callback or one of the callback objects supplied in the
specification; callbacks are shared, never copied, so aliasing one callback
to many keys resolves all those cells to the identical object (the
independent-copy guarantee applies to models only). -/
theorem create_callbacks_identity_preserved
    (spec : CallbackSpec) (genes lineages : List String) (grid : CallbackGrid)
    (hok : _create_callbacks spec genes lineages = .ok grid) :
    ∀ r ∈ grid, ∀ p ∈ r.2,
      p.2 = _default_model_callback ∨ p.2 ∈ cbSpecCallbacks spec := by
  by_cases hg : genes = []
  · simp [_create_callbacks, hg] at hok
  by_cases hl : lineages = []
  · simp [_create_callbacks, hg, hl] at hok
  simp only [_create_callbacks, if_neg hg, if_neg hl, Except.ok.injEq] at hok
  subst hok
  intro r hr p hp
  obtain ⟨g, _, rfl⟩ := List.mem_map.mp hr
  simp only at hp
  cases spec with
  | default =>
    simp only [resolveCbGene] at hp
    rcases resolveCbLin_provenance _ _ p hp with h | h
    · exact Or.inl h
    · simp [cbLinCallbacks] at h
  | cb f =>
    simp only [resolveCbGene] at hp
    rcases resolveCbLin_provenance _ _ p hp with h | h
    · exact Or.inl h
    · simp only [cbLinCallbacks, List.mem_singleton] at h
      exact Or.inr (by simp [cbSpecCallbacks, h])
  | dict entries =>
    simp only [resolveCbGene] at hp
    cases hw : wildcardLookup entries g with
    | none =>
      rw [hw] at hp
      rcases resolveCbLin_provenance _ _ p hp with h | h
      · exact Or.inl h
      · simp [cbLinCallbacks] at h
    | some ls =>
      rw [hw] at hp
      rcases resolveCbLin_provenance _ _ p hp with h | h
      · exact Or.inl h
      · right
        obtain ⟨k2, hmem⟩ := wildcardLookup_mem hw
        simp only [cbSpecCallbacks, List.mem_flatten]
        exact ⟨cbLinCallbacks ls, List.mem_map.mpr ⟨(k2, ls), hmem, rfl⟩, h⟩

/-- Witness for the amended C2: in the resolved grid of a concrete
lineage-specific specification, the cell (g1, l1) holds a spec-supplied
object by identity. -/
theorem create_callbacks_identity_preserved_witness :
    ("l1", CallbackObj.mk 3).2 = _default_model_callback ∨
    ("l1", CallbackObj.mk 3).2 ∈ cbSpecCallbacks (.dict [("g1", .dict [("l1", some ⟨3⟩)])]) :=
  create_callbacks_identity_preserved
    (.dict [("g1", .dict [("l1", some ⟨3⟩)])]) ["g1"] ["l1", "l2"]
    [("g1", [("l1", ⟨3⟩), ("l2", _default_model_callback)])] (by decide)
    ("g1", [("l1", ⟨3⟩), ("l2", _default_model_callback)]) (by decide)
    ("l1", ⟨3⟩) (by decide)

/-- C3 counterexample: the claim that `_create_callbacks` fails with the
missing-genes `ValueError` for a flat, wildcard-free mapping that omits a
requested gene is false — it resolves successfully, assigning the built-in
default callback to the missing gene (as `TestCreateCallbacks.
test_create_models_gene_incomplete` asserts). -/
theorem create_callbacks_missing_gene_cex :
    _create_callbacks (.dict [("foo", .cb ⟨3⟩)]) ["foo", "bar"] ["baz"] =
      .ok [("foo", [("baz", ⟨3⟩)]), ("bar", [("baz", _default_model_callback)])] := by
  decide

/-- A gene-level mapping is flat: every gene maps directly to a model. -/
def flatSpec (entries : List (String × LinSpec)) : Bool :=
  entries.all (fun p =>
    match p.2 with
    | .model _ => true
    | .dict _ => false)

theorem resolveGenes_missing_gene (entries : List (String × LinSpec)) (lineages : List String)
    (hflat : flatSpec entries = true) (hwc : entries.lookup "*" = none) :
    ∀ (genes : List String) (c : Nat) (g : String), g ∈ genes → entries.lookup g = none →
      resolveGenes entries genes lineages c = .error "No options were specified for genes" := by
  intro genes
  induction genes with
  | nil => intro c g hg _; cases hg
  | cons a rest ih =>
    intro c g hg hmiss
    cases hw : wildcardLookup entries a with
    | none => simp [resolveGenes, hw]
    | some ls =>
      have hla : entries.lookup a = some ls := by
        unfold wildcardLookup at hw
        cases hl : entries.lookup a with
        | some v => rw [hl] at hw; exact hw
        | none => rw [hl, hwc] at hw; cases hw
      have hgrest : g ∈ rest := by
        rcases List.mem_cons.mp hg with rfl | h
        · rw [hmiss] at hla; cases hla
        · exact h
      obtain ⟨m, rfl⟩ : ∃ m, ls = .model m := by
        have hmem := lookup_mem hla
        have := List.all_eq_true.mp hflat _ hmem
        cases ls with
        | model m => exact ⟨m, rfl⟩
        | dict d => simp at this
      simp only [resolveGenes, hw, resolveLin]
      rw [ih (broadcastRow m lineages c).2 g hgrest hmiss]

/-- C3 amended: for a flat, wildcard-free gene-to-model/callback mapping
that omits a requested gene, `_create_models` fails with the
missing-genes `ValueError`, while `_create_callbacks` does not fail: it
resolves the missing gene to the built-in default callback for every
lineage. -/
theorem missing_gene_models_raise_callbacks_default :
    (∀ (entries : List (String × LinSpec)) (genes lineages : List String) (g : String) (c : Nat),
      flatSpec entries = true → entries.lookup "*" = none →
      g ∈ genes → entries.lookup g = none → lineages ≠ [] →
      _create_models (.dict entries) genes lineages c =
        .error "No options were specified for genes") ∧
    (∀ (entries : List (String × CbLinSpec)) (genes lineages : List String) (g : String),
      lineages ≠ [] → g ∈ genes →
      entries.lookup g = none → entries.lookup "*" = none →
      ∃ grid, _create_callbacks (.dict entries) genes lineages = .ok grid ∧
        (g, lineages.map (fun l => (l, _default_model_callback))) ∈ grid) := by
  constructor
  · intro entries genes lineages g c hflat hwc hg hmiss hl
    have hgenes : genes ≠ [] := by
      intro h
      rw [h] at hg
      cases hg
    simp only [_create_models, if_neg hgenes, if_neg hl]
    exact resolveGenes_missing_gene entries lineages hflat hwc genes c g hg hmiss
  · intro entries genes lineages g hl hg hmiss hwc
    have hgenes : genes ≠ [] := by
      intro h
      rw [h] at hg
      cases hg
    refine ⟨genes.map (fun a => (a, resolveCbGene (.dict entries) a lineages)), ?_, ?_⟩
    · simp [_create_callbacks, hgenes, hl]
    · have hcell : resolveCbGene (.dict entries) g lineages =
          lineages.map (fun l => (l, _default_model_callback)) := by
        have hw : wildcardLookup entries g = none := by
          unfold wildcardLookup
          rw [hmiss, hwc]
        simp [resolveCbGene, hw, resolveCbLin]
      rw [← hcell]
      exact List.mem_map.mpr ⟨g, hg, rfl⟩

/-- Witness for the amended C3 at the concrete inputs of the repository's
tests: gene bar is missing from the flat mapping. -/
theorem missing_gene_models_raise_callbacks_default_witness :
    _create_models (.dict [("foo", .model ⟨1, 1⟩)]) ["foo", "bar"] ["baz"] 10 =
      .error "No options were specified for genes" ∧
    ∃ grid, _create_callbacks (.dict [("foo", .cb ⟨3⟩)]) ["foo", "bar"] ["baz"] = .ok grid ∧
      ("bar", [("baz", _default_model_callback)]) ∈ grid :=
  ⟨missing_gene_models_raise_callbacks_default.1 [("foo", .model ⟨1, 1⟩)]
      ["foo", "bar"] ["baz"] "bar" 10 (by decide) (by decide) (by decide) (by decide) (by decide),
    missing_gene_models_raise_callbacks_default.2 [("foo", .cb ⟨3⟩)]
      ["foo", "bar"] ["baz"] "bar" (by decide) (by decide) (by decide) (by decide)⟩

/-- A pandas categorical series: an index, per-position values where `none`
is the reserved missing marker, and an explicit ordered category set. -/
structure CatSeries where
  idx : List Nat
  values : List (Option String)
  cats : List String
deriving DecidableEq, Repr

/-- One merged position: the new series wins when non-missing, else the old
value is kept. -/
def mergeVal (xv yv : Option String) : Option String :=
  match yv with
  | some v => some v
  | none => xv

/-- Modelled from the spec: `_merge_categorical_series` from
`cellrank._utils._utils` (implementation absent from the snapshot;
behaviour pinned by `TestToolsUtils` in `tests/test_utils.py`).  Requires
identical indices; per position the new series wins when non-missing; the
result's categories are the old categories followed by the new ones not
already present, restricted to the categories present in the merged
values.  The colour-merging arm is not needed by the claims and is not
modelled. -/
def _merge_categorical_series (x y : CatSeries) : Except String CatSeries :=
  if x.idx ≠ y.idx then .error "Index of old and new series differ"
  else
    let vals := List.zipWith mergeVal x.values y.values
    let catsAll := x.cats ++ y.cats.filter (fun c => ! x.cats.contains c)
    .ok { idx := x.idx, values := vals,
          cats := catsAll.filter (fun c => vals.contains (some c)) }

/-- The merged value at position `i`: defined whenever both series have
position `i`, taking the new value when non-missing and the old one
otherwise. -/
def mergedAt (xs ys : List (Option String)) (i : Nat) : Option (Option String) :=
  match xs.get? i, ys.get? i with
  | some a, some b => some (mergeVal a b)
  | _, _ => none

theorem zipWith_mergeVal_get? :
    ∀ (xs ys : List (Option String)) (i : Nat),
      (List.zipWith mergeVal xs ys).get? i = mergedAt xs ys i := by
  intro xs
  induction xs with
  | nil => intro ys i; cases ys <;> cases i <;> simp [mergedAt]
  | cons a as ih =>
    intro ys i
    cases ys with
    | nil => cases i <;> simp [mergedAt]
    | cons b bs =>
      cases i with
      | zero => simp [mergedAt]
      | succ n => simpa [mergedAt] using ih bs n

/-- C6: merging two categorical series with identical index takes the new
value wherever it is non-missing and the old value otherwise, and the
result's category set is the union of both category sets restricted to the
categories actually present after the merge, ordered as the old categories
followed by the new ones. -/
theorem merge_categorical_series_spec (x y : CatSeries)
    (hidx : x.idx = y.idx) (hlen : x.values.length = y.values.length) :
    ∃ r, _merge_categorical_series x y = .ok r ∧
      r.values.length = x.values.length ∧
      (∀ i : Nat, r.values.get? i = mergedAt x.values y.values i) ∧
      (∀ c, c ∈ r.cats ↔ ((c ∈ x.cats ∨ c ∈ y.cats) ∧ (some c) ∈ r.values)) ∧
      r.cats.Sublist (x.cats ++ y.cats.filter (fun c => ! x.cats.contains c)) := by
  refine ⟨{ idx := x.idx,
            values := List.zipWith mergeVal x.values y.values,
            cats := (x.cats ++ y.cats.filter (fun c => ! x.cats.contains c)).filter
              (fun c => (List.zipWith mergeVal x.values y.values).contains (some c)) },
    ?_, ?_, ?_, ?_, ?_⟩
  · simp only [_merge_categorical_series, hidx, ne_eq, not_true_eq_false, if_false]
  · simpa using hlen.le
  · intro i
    show (List.zipWith mergeVal x.values y.values).get? i = _
    exact zipWith_mergeVal_get? x.values y.values i
  · intro c
    constructor
    · intro hm
      obtain ⟨hall, hcont⟩ := List.mem_filter.mp hm
      refine ⟨?_, ?_⟩
      · rcases List.mem_append.mp hall with h | h
        · exact Or.inl h
        · exact Or.inr (List.mem_filter.mp h).1
      · show (some c) ∈ List.zipWith mergeVal x.values y.values
        simpa [List.contains, List.elem_iff] using hcont
    · rintro ⟨hor, hmem⟩
      refine List.mem_filter.mpr ⟨?_, ?_⟩
      · by_cases hx : c ∈ x.cats
        · exact List.mem_append.mpr (Or.inl hx)
        · rcases hor with h | h
          · exact absurd h hx
          · refine List.mem_append.mpr (Or.inr (List.mem_filter.mpr ⟨h, ?_⟩))
            simpa [List.contains, List.elem_iff] using hx
      · have hmem' : (some c) ∈ List.zipWith mergeVal x.values y.values := hmem
        simpa [List.contains, List.elem_iff] using hmem'
  · exact List.filter_sublist _

/-- Witness for C6 at the concrete series of
`TestToolsUtils.test_merge_normal_run`. -/
theorem merge_categorical_series_spec_witness :
    ∃ r, _merge_categorical_series
        ⟨[0, 1, 2, 3, 4], [some "a", some "b", none, some "b", none], ["a", "b"]⟩
        ⟨[0, 1, 2, 3, 4], [some "b", none, some "a", some "d", some "a"], ["a", "b", "d"]⟩ =
        .ok r ∧
      r.values.length = 5 ∧
      (∀ i : Nat, r.values.get? i =
        mergedAt [some "a", some "b", none, some "b", none]
          [some "b", none, some "a", some "d", some "a"] i) ∧
      (∀ c, c ∈ r.cats ↔ ((c ∈ ["a", "b"] ∨ c ∈ ["a", "b", "d"]) ∧ (some c) ∈ r.values)) ∧
      r.cats.Sublist (["a", "b"] ++ ["a", "b", "d"].filter (fun c => ! ["a", "b"].contains c)) :=
  merge_categorical_series_spec
    ⟨[0, 1, 2, 3, 4], [some "a", some "b", none, some "b", none], ["a", "b"]⟩
    ⟨[0, 1, 2, 3, 4], [some "b", none, some "a", some "d", some "a"], ["a", "b", "d"]⟩
    (by decide) (by decide)

/-- Split a character list at commas, keeping empty segments. -/
def splitComma : List Char → List (List Char)
  | [] => [[]]
  | c :: rest =>
    let r := splitComma rest
    if c = ',' then [] :: r
    else
      match r with
      | h :: t => (c :: h) :: t
      | [] => [[c]]

/-- Strip leading and trailing spaces. -/
def trimSpaces (l : List Char) : List Char :=
  ((l.dropWhile (fun c => c = ' ')).reverse.dropWhile (fun c => c = ' ')).reverse

/-- Parse one comma-joined group key into its distinct member category
names, e.g. parsing a key of the three members b, a, d.  Repetitions inside
one group are deduplicated. -/
def parseGroup (key : String) : List String :=
  ((splitComma key.data).map (fun cs => String.mk (trimSpaces cs))).dedup

/-- Lexicographic comparison of character lists. -/
def charListLe : List Char → List Char → Bool
  | [], _ => true
  | _ :: _, [] => false
  | a :: as, b :: bs => if a < b then true else if b < a then false else charListLe as bs

/-- Insertion step of the alphabetical sort used when rendering a combined
group label. -/
def insertStr (s : String) : List String → List String
  | [] => [s]
  | t :: rest => if charListLe s.data t.data then s :: t :: rest else t :: insertStr s rest

/-- Alphabetical insertion sort of strings. -/
def sortStrs (l : List String) : List String := l.foldr insertStr []

/-- The rendered label of a group: its distinct member names sorted
alphabetically and joined by a comma and a space. -/
def groupLabel (key : String) : String :=
  String.intercalate ", " (sortStrs (parseGroup key))

/-- A category name occurs in two distinct groups. -/
def overlapExists : List (List String) → Bool
  | [] => false
  | g :: rest => g.any (fun m => rest.any (fun g2 => g2.contains m)) || overlapExists rest

/-- Modelled from the spec: `_compute_mean_color` from
`cellrank._utils._colors` (implementation absent from the snapshot), the
deterministic combination function over member colours; abstracted as a
formal mean tag over the combined colours. -/
def _compute_mean_color (cs : List String) : String :=
  "mean(" ++ String.intercalate ", " cs ++ ")"

/-- The colours of a group's member categories, in category order, read off
the per-category colour list `cs` aligned with `cats`. -/
def groupColors (cats cs members : List String) : List String :=
  (cats.zip cs).filterMap (fun p => if members.contains p.1 then some p.2 else none)

/-- Resolve the parsed groups (member set and rendered label per group)
over a categorical series: validates that all members are proper
categories and that no category occurs in two distinct groups, then maps
every position to the label of the group containing its value and combines
the member colours of each group. -/
def processGroups (x : CatSeries) (gps : List (List String × String))
    (cols : Option (List String)) : Except String (CatSeries × Option (List String)) :=
  if ! (gps.all (fun g => g.1.all (fun m => x.cats.contains m))) then
    .error "Not all keys are proper categories"
  else if overlapExists (gps.map (fun g => g.1)) then
    .error "Found overlapping keys"
  else
    .ok ({ idx := x.idx,
           values := x.values.map (fun v => v.bind (fun s =>
             (gps.find? (fun g => g.1.contains s)).map (fun g => g.2))),
           cats := gps.map (fun g => g.2) },
         cols.map (fun cs => gps.map (fun g =>
           _compute_mean_color (groupColors x.cats cs g.1))))

/-- Modelled from the spec: `_process_series` from
`cellrank._utils._utils` (implementation absent from the snapshot;
behaviour pinned by `TestProcessSeries` in `tests/test_utils.py`).  `none`
keys are a no-op returning the series and colours unchanged.  When colours
are supplied their length must match the number of categories of the
series, as `test_colors_wrong_number_of_colors` (one key, one colour, two
categories) and `test_return_colors` (two keys, four colours, four
categories) pin; the colour-likeness validation itself is outside this
model, colours being opaque strings. -/
def _process_series (x : CatSeries) (keys : Option (List String))
    (cols : Option (List String)) : Except String (CatSeries × Option (List String)) :=
  match keys with
  | none => .ok (x, cols)
  | some ks =>
    match cols with
    | some cs =>
      if cs.length ≠ x.cats.length then
        .error "Length of colors does not match the number of categories"
      else processGroups x (ks.map (fun k => (parseGroup k, groupLabel k))) (some cs)
    | none => processGroups x (ks.map (fun k => (parseGroup k, groupLabel k))) none

/-- C7 counterexample: the claim that `_process_series` fails whenever the
supplied colour list's length differs from the number of keys is false.
With two keys, four colours and four categories (the inputs of
`TestProcessSeries.test_return_colors`) the call succeeds, returning one
combined colour per group. -/
theorem process_series_cols_len_cex :
    ((["red", "green", "blue", "white"] : List String).length ≠
      (["b, a", "d, c"] : List String).length) ∧
    _process_series
        ⟨[0, 1, 2, 3, 4], [some "b", some "c", some "a", some "d", some "a"],
          ["a", "b", "c", "d"]⟩
        (some ["b, a", "d, c"]) (some ["red", "green", "blue", "white"]) =
      .ok (⟨[0, 1, 2, 3, 4],
            [some "a, b", some "c, d", some "a, b", some "c, d", some "a, b"],
            ["a, b", "c, d"]⟩,
           some ["mean(red, green)", "mean(blue, white)"]) :=
  ⟨by decide, by decide⟩

/-- C7 amended: when colours are supplied, `_process_series` fails with the
length-mismatch `ValueError` exactly when the colour list's length differs
from the number of categories of the series (not from the number of keys),
and this check precedes all other key validation. -/
theorem process_series_cols_length_check (x : CatSeries) (ks cs : List String)
    (h : cs.length ≠ x.cats.length) :
    _process_series x (some ks) (some cs) =
      .error "Length of colors does not match the number of categories" := by
  simp [_process_series, h]

/-- Witness for the amended C7 at the inputs of
`TestProcessSeries.test_colors_wrong_number_of_colors`: one colour for two
categories fails, whatever the single key is. -/
theorem process_series_cols_length_check_witness :
    _process_series ⟨[0, 1, 2, 3, 4], [some "a", some "b", none, some "b", none], ["a", "b"]⟩
        (some ["foo"]) (some ["red"]) =
      .error "Length of colors does not match the number of categories" :=
  process_series_cols_length_check
    ⟨[0, 1, 2, 3, 4], [some "a", some "b", none, some "b", none], ["a", "b"]⟩
    ["foo"] ["red"] (by decide)

/-- C10: a category repeated inside one comma-joined group is deduplicated
rather than rejected — processing the key that names a three times equals
processing the plain key a — while the overlapping-keys `ValueError` is
raised when the same category occurs in two distinct groups. -/
theorem process_series_dedup_within_group_overlap_across :
    (∀ (x : CatSeries) (cols : Option (List String)),
      _process_series x (some ["a, a, a"]) cols = _process_series x (some ["a"]) cols) ∧
    (∀ x : CatSeries, "a" ∈ x.cats → "b" ∈ x.cats →
      _process_series x (some ["a", "b, a"]) none = .error "Found overlapping keys") := by
  constructor
  · intro x cols
    have h : (["a, a, a"].map (fun k => (parseGroup k, groupLabel k))) =
        (["a"].map (fun k => (parseGroup k, groupLabel k))) := by decide
    cases cols with
    | none => simp only [_process_series, h]
    | some cs => simp only [_process_series, h]
  · intro x ha hb
    have hpa : parseGroup "a" = ["a"] := by decide
    have hpb : parseGroup "b, a" = ["b", "a"] := by decide
    have hmem : ((["a", "b, a"].map (fun k => (parseGroup k, groupLabel k))).all
        (fun g => g.1.all (fun m => x.cats.contains m))) = true := by
      simp [hpa, hpb, List.contains, List.elem_iff, ha, hb]
    have hov : overlapExists
        ((["a", "b, a"].map (fun k => (parseGroup k, groupLabel k))).map (fun g => g.1)) =
        true := by decide
    simp only [_process_series, List.map_cons, List.map_nil] at hmem hov ⊢
    unfold processGroups
    rw [hmem]
    simp only [List.map_cons, List.map_nil]
    rw [hov]
    simp

/-- Witness for C10 at the concrete series of the repository's tests. -/
theorem process_series_dedup_within_group_overlap_across_witness :
    _process_series ⟨[0, 1, 2, 3, 4], [some "a", some "b", none, some "b", none], ["a", "b"]⟩
        (some ["a, a, a"]) none =
      _process_series ⟨[0, 1, 2, 3, 4], [some "a", some "b", none, some "b", none], ["a", "b"]⟩
        (some ["a"]) none ∧
    _process_series ⟨[0, 1, 2, 3, 4], [some "a", some "b", none, some "b", none], ["a", "b"]⟩
        (some ["a", "b, a"]) none = .error "Found overlapping keys" :=
  ⟨process_series_dedup_within_group_overlap_across.1
      ⟨[0, 1, 2, 3, 4], [some "a", some "b", none, some "b", none], ["a", "b"]⟩ none,
    process_series_dedup_within_group_overlap_across.2
      ⟨[0, 1, 2, 3, 4], [some "a", some "b", none, some "b", none], ["a", "b"]⟩
      (by decide) (by decide)⟩

/-- Entry (i, c) of a fuzzy membership matrix given as a list of rows
(0 outside the bounds). -/
def fuzzyEntry (a : List (List ℚ)) (i c : Nat) : ℚ := (a.getD i []).getD c 0

/-- The number of states (columns) of a fuzzy membership matrix. -/
def nClusters (a : List (List ℚ)) : Nat := (a.headD []).length

/-- Every row of the matrix sums to one (the tolerance of the numerical
check is idealised away). -/
def rowsNormalized (a : List (List ℚ)) : Bool := a.all (fun r => decide (r.sum = 1))

/-- The rank of entity `i` in state column `c`: how many entities are
preferred to it, by strictly larger membership or by equal membership and
smaller index (the deterministic tie-break of sorting). -/
def colRank (a : List (List ℚ)) (i c : Nat) : Nat :=
  (List.range a.length).countP (fun j =>
    decide (fuzzyEntry a i c < fuzzyEntry a j c ∨
      (fuzzyEntry a j c = fuzzyEntry a i c ∧ j < i)))

/-- Top-`k` selection: entity `i` is selected for state `c` iff it is among
the `k` entities of largest membership in column `c`. -/
def topSelected (a : List (List ℚ)) (k i c : Nat) : Bool := decide (colRank a i c < k)

/-- Threshold selection (the default path without `n_most_likely`): entity
`i` is selected for state `c` iff its membership exceeds the per-column
threshold. -/
def thrSelected (a : List (List ℚ)) (thr : Nat → ℚ) (i c : Nat) : Bool :=
  decide (thr c < fuzzyEntry a i c)

/-- How many states selected entity `i`. -/
def selCount (a : List (List ℚ)) (sel : Nat → Nat → Bool) (i : Nat) : Nat :=
  (List.range (nClusters a)).countP (fun c => sel i c)

/-- Entity `i` is selected by more than one state (an overlap conflict). -/
def isMulti (a : List (List ℚ)) (sel : Nat → Nat → Bool) (i : Nat) : Bool :=
  decide (2 ≤ selCount a sel i)

/-- The state of largest membership of entity `i` (first maximum, like
argmax). -/
def winner (a : List (List ℚ)) (i : Nat) : Nat :=
  (List.range (nClusters a)).foldl
    (fun best c => if fuzzyEntry a i best < fuzzyEntry a i c then c else best) 0

/-- Entity `i` counts towards state `c` after resolving overlaps: it is
selected there and, in case of conflict, `c` is its most likely state. -/
def singleSelected (a : List (List ℚ)) (sel : Nat → Nat → Bool) (i c : Nat) : Bool :=
  sel i c && (!(isMulti a sel i) || decide (winner a i = c))

/-- Members of state `c` counting every conflicted entity only towards its
most likely state. -/
def singleCount (a : List (List ℚ)) (sel : Nat → Nat → Bool) (c : Nat) : Nat :=
  (List.range a.length).countP (fun i => singleSelected a sel i c)

/-- The raw boolean assignment (one row per entity), unmodified. -/
def rawMatrix (a : List (List ℚ)) (sel : Nat → Nat → Bool) : List (List Bool) :=
  (List.range a.length).map (fun i => (List.range (nClusters a)).map (fun c => sel i c))

/-- The assignment after overlap removal: a conflicted entity is kept only
in its most likely state. -/
def resolvedMatrix (a : List (List ℚ)) (sel : Nat → Nat → Bool) : List (List Bool) :=
  (List.range a.length).map (fun i =>
    (List.range (nClusters a)).map (fun c =>
      if isMulti a sel i then decide (winner a i = c) else sel i c))

/-- States that would lose a conflicted entity to another state, in
ascending order. -/
def lostClusters (a : List (List ℚ)) (sel : Nat → Nat → Bool) : List Nat :=
  (List.range (nClusters a)).filter (fun c =>
    (List.range a.length).any (fun i =>
      sel i c && isMulti a sel i && !(decide (winner a i = c))))

/-- States involved in some conflict, in ascending order. -/
def involvedClusters (a : List (List ℚ)) (sel : Nat → Nat → Bool) : List Nat :=
  (List.range (nClusters a)).filter (fun c =>
    (List.range a.length).any (fun i => sel i c && isMulti a sel i))

/-- Modelled from the spec: `_fuzzy_to_discrete` from
`cellrank._utils._utils` (implementation absent from the snapshot;
behaviour pinned by `TestFuzzyToDiscrete` in `tests/test_utils.py`).
Checks that rows sum to one, then that `n_most_likely` does not exceed the
entity count over the state count; with `n_most_likely` given it selects
the top entities per state and — as `test_raise_threshold` pins for both
values of `remove_overlap` — fails when counting every conflicted entity
only towards its most likely state leaves some state with fewer members
than the raise threshold (one fifth of `n_most_likely`, at least one).  On
success the assignment is the raw selection (`remove_overlap` false,
conflicts reported as the ascending losing states) or the overlap-resolved
selection (`remove_overlap` true, the states involved in conflicts
reported).  On the default path the spec leaves the per-column threshold
undefined, so it is abstracted as the parameter `thr`, and the spec
asserts this path never fails for normalized input. -/
def _fuzzy_to_discrete (a : List (List ℚ)) (n_most_likely : Option Nat)
    (remove_overlap : Bool) (thr : Nat → ℚ) :
    Except String (List (List Bool) × List Nat) :=
  if ! rowsNormalized a then .error "Rows in a_fuzzy do not sum to 1"
  else
    match n_most_likely with
    | some k =>
      if a.length / nClusters a < k then
        .error "Please decrease this to at most the entity count over the state count"
      else if (List.range (nClusters a)).any
          (fun c => decide (singleCount a (topSelected a k) c < max 1 (k / 5))) then
        .error "Discretizing leads to a cluster with too few cells"
      else if remove_overlap then
        .ok (resolvedMatrix a (topSelected a k), involvedClusters a (topSelected a k))
      else
        .ok (rawMatrix a (topSelected a k), lostClusters a (topSelected a k))
    | none =>
      if remove_overlap then
        .ok (resolvedMatrix a (thrSelected a thr), involvedClusters a (thrSelected a thr))
      else
        .ok (rawMatrix a (thrSelected a thr), lostClusters a (thrSelected a thr))

/-- C5: for a fuzzy matrix whose rows sum to one, `_fuzzy_to_discrete`
with no `n_most_likely` never fails, and with `n_most_likely` exceeding
the entity count over the state count it always fails with the
decrease-this `ValueError`, before any discretization work. -/
theorem fuzzy_to_discrete_none_total_and_bound (a : List (List ℚ))
    (hsum : rowsNormalized a = true) :
    (∀ (ro : Bool) (thr : Nat → ℚ), ∃ out, _fuzzy_to_discrete a none ro thr = .ok out) ∧
    (∀ (k : Nat) (ro : Bool) (thr : Nat → ℚ), a.length / nClusters a < k →
      _fuzzy_to_discrete a (some k) ro thr =
        .error "Please decrease this to at most the entity count over the state count") := by
  constructor
  · intro ro thr
    cases ro with
    | true =>
      exact ⟨(resolvedMatrix a (thrSelected a thr), involvedClusters a (thrSelected a thr)),
        by simp [_fuzzy_to_discrete, hsum]⟩
    | false =>
      exact ⟨(rawMatrix a (thrSelected a thr), lostClusters a (thrSelected a thr)),
        by simp [_fuzzy_to_discrete, hsum]⟩
  · intro k ro thr hk
    simp [_fuzzy_to_discrete, hsum, hk]

/-- Witness for C5 on a concrete one-hot 2-by-2 row-stochastic matrix. -/
theorem fuzzy_to_discrete_none_total_and_bound_witness :
    (∃ out, _fuzzy_to_discrete [[(1 : ℚ), 0], [0, 1]] none true (fun _ => 1/2) = .ok out) ∧
    _fuzzy_to_discrete [[(1 : ℚ), 0], [0, 1]] (some 2) true (fun _ => 1/2) =
      .error "Please decrease this to at most the entity count over the state count" :=
  ⟨(fuzzy_to_discrete_none_total_and_bound [[(1 : ℚ), 0], [0, 1]]
      (by with_unfolding_all rfl)).1 true (fun _ => 1/2),
    (fuzzy_to_discrete_none_total_and_bound [[(1 : ℚ), 0], [0, 1]]
      (by with_unfolding_all rfl)).2 2 true (fun _ => 1/2) (by decide)⟩

/-- C4 counterexample: the claim that the Discretizing-leads `ValueError`
arises only on the `remove_overlap=True` path is false.  On the matrix of
ten identical rows with memberships nine tenths and one tenth (the input
of `TestFuzzyToDiscrete.test_raise_threshold`), `_fuzzy_to_discrete` with
`n_most_likely=3` fails with that error also when `remove_overlap=False`,
instead of reporting conflicts without raising. -/
theorem fuzzy_to_discrete_raises_without_removal_cex :
    rowsNormalized (List.replicate 10 [(9 : ℚ)/10, 1/10]) = true ∧
    _fuzzy_to_discrete (List.replicate 10 [(9 : ℚ)/10, 1/10]) (some 3) false (fun _ => 0) =
      .error "Discretizing leads to a cluster with too few cells" :=
  ⟨by with_unfolding_all rfl, by with_unfolding_all rfl⟩

/-- A computation succeeded. -/
def exceptIsOk {ε α : Type} : Except ε α → Bool
  | .ok _ => true
  | .error _ => false

/-- C4 amended: with `n_most_likely` given, whether `_fuzzy_to_discrete`
fails is independent of `remove_overlap` — the under-population check
counts every conflicted entity only towards its most likely state on both
paths — and when the `remove_overlap=False` path succeeds it returns the
raw boolean assignment unmodified together with the conflicting losing
state indices as a sorted sequence. -/
theorem fuzzy_to_discrete_no_removal_path (a : List (List ℚ)) (k : Nat) (thr : Nat → ℚ) :
    (exceptIsOk (_fuzzy_to_discrete a (some k) false thr) =
      exceptIsOk (_fuzzy_to_discrete a (some k) true thr)) ∧
    (∀ M crit, _fuzzy_to_discrete a (some k) false thr = .ok (M, crit) →
      M = rawMatrix a (topSelected a k) ∧
      crit = lostClusters a (topSelected a k) ∧
      List.Sorted (· < ·) crit) := by
  constructor
  · cases hr : rowsNormalized a with
    | false => simp [_fuzzy_to_discrete, hr]
    | true =>
      by_cases h2 : a.length / nClusters a < k
      · simp [_fuzzy_to_discrete, hr, h2, exceptIsOk]
      · cases h3 : (List.range (nClusters a)).any
            (fun c => decide (singleCount a (topSelected a k) c < max 1 (k / 5))) with
        | true =>
          simp only [_fuzzy_to_discrete, hr, if_neg h2]
          rw [h3]
          simp [exceptIsOk]
        | false =>
          simp only [_fuzzy_to_discrete, hr, if_neg h2]
          rw [h3]
          simp [exceptIsOk]
  · intro M crit hok
    cases hr : rowsNormalized a with
    | false => simp [_fuzzy_to_discrete, hr] at hok
    | true =>
      by_cases h2 : a.length / nClusters a < k
      · simp [_fuzzy_to_discrete, hr, h2] at hok
      · cases h3 : (List.range (nClusters a)).any
            (fun c => decide (singleCount a (topSelected a k) c < max 1 (k / 5))) with
        | true =>
          simp only [_fuzzy_to_discrete, hr, if_neg h2] at hok
          rw [h3] at hok
          simp at hok
        | false =>
          simp only [_fuzzy_to_discrete, hr, if_neg h2] at hok
          rw [h3] at hok
          simp only [Bool.not_true, Bool.false_eq_true, if_false, Bool.not_false,
            if_true, Except.ok.injEq] at hok
          injection hok with hM0 hc0
          refine ⟨hM0.symm, hc0.symm, ?_⟩
          exact hc0 ▸ List.Pairwise.sublist (List.filter_sublist _) (List.pairwise_lt_range _)

/-- Witness for the amended C4 on a one-hot 2-by-2 matrix with
`n_most_likely=1`: the no-removal path succeeds with the raw assignment
and an empty sorted conflict list. -/
theorem fuzzy_to_discrete_no_removal_path_witness :
    ([[true, false], [false, true]] : List (List Bool)) =
      rawMatrix [[(1 : ℚ), 0], [0, 1]] (topSelected [[(1 : ℚ), 0], [0, 1]] 1) ∧
    ([] : List Nat) = lostClusters [[(1 : ℚ), 0], [0, 1]] (topSelected [[(1 : ℚ), 0], [0, 1]] 1) ∧
    List.Sorted (· < ·) ([] : List Nat) :=
  (fuzzy_to_discrete_no_removal_path [[(1 : ℚ), 0], [0, 1]] 1 (fun _ => 0)).2
    [[true, false], [false, true]] [] (by with_unfolding_all rfl)

/-- The raw alternate view of a dataset: its own feature names and
feature-annotation table (columns keyed by name). -/
structure RawView where
  var_names : List String
  var : List (String × List String)
deriving DecidableEq, Repr

/-- A dataset: feature-name index, feature-annotation table and an
optional linked raw view. -/
structure AnnDataObj where
  var_names : List String
  var : List (String × List String)
  raw : Option RawView
deriving DecidableEq, Repr

/-- Modelled from the spec: `_gene_symbols_ctx` from
`cellrank._utils._utils` (implementation absent from the snapshot;
behaviour pinned by `TestGeneSymbolsCtxManager` in `tests/test_utils.py`).
The scoped block is a state transformer returning the dataset it leaves
behind together with an optional raised failure.  With no key the context
is a no-op.  Otherwise the named column of the feature-annotation table
(of the raw view when `use_raw`) replaces the feature-name index
(unique-ified by the external `mkUnique` transform when `make_unique`); a
missing column fails before the block runs.  On exit — whether the block
finished normally or raised — the original feature-name index and the
original raw-view association are restored unconditionally. -/
def _gene_symbols_ctx (adata : AnnDataObj) (key : Option String) (use_raw make_unique : Bool)
    (mkUnique : List String → List String)
    (body : AnnDataObj → AnnDataObj × Option String) : AnnDataObj × Option String :=
  match key with
  | none => body adata
  | some k =>
    let tbl : Option (List (String × List String)) :=
      if use_raw then adata.raw.map RawView.var else some adata.var
    match tbl with
    | none => (adata, some "AttributeError: raw is not set")
    | some t =>
      match t.lookup k with
      | none => (adata, some "KeyError")
      | some col =>
        let names := if make_unique then mkUnique col else col
        let mutated :=
          if use_raw then
            { adata with raw := adata.raw.map (fun r => { r with var_names := names }) }
          else
            { adata with var_names := names }
        let after := body mutated
        ({ after.1 with var_names := adata.var_names, raw := adata.raw }, after.2)

/-- C8: however the scoped block ends — normally or with a raised failure,
for any key, including keys rejected at entry — the dataset left behind by
`_gene_symbols_ctx` carries the pre-entry feature-name index and the
pre-entry raw-view association whenever a key was given, and with no key
the context is a transparent no-op. -/
theorem gene_symbols_ctx_restores (adata : AnnDataObj) (k : String)
    (use_raw make_unique : Bool) (mkUnique : List String → List String)
    (body : AnnDataObj → AnnDataObj × Option String) :
    ((_gene_symbols_ctx adata (some k) use_raw make_unique mkUnique body).1.var_names =
        adata.var_names ∧
      (_gene_symbols_ctx adata (some k) use_raw make_unique mkUnique body).1.raw =
        adata.raw) ∧
    _gene_symbols_ctx adata none use_raw make_unique mkUnique body = body adata := by
  refine ⟨?_, rfl⟩
  unfold _gene_symbols_ctx
  cases use_raw with
  | false =>
    cases hl : adata.var.lookup k with
    | none => simp [hl]
    | some col => simp [hl]
  | true =>
    cases hraw : adata.raw with
    | none => simp [hraw]
    | some r =>
      cases hl : r.var.lookup k with
      | none => simp [hraw, hl]
      | some col => simp [hraw, hl]

/-- The chunk sizes used to split `n` elements into `k` contiguous
near-equal chunks, larger chunks first (ceiling division, then recurse on
the remainder). -/
def chunkSizes : Nat → Nat → List Nat
  | _, 0 => []
  | n, k + 1 => (n + k) / (k + 1) :: chunkSizes (n - (n + k) / (k + 1)) k

/-- Split a list into consecutive chunks of the given sizes. -/
def splitSizes {α : Type} : List α → List Nat → List (List α)
  | _, [] => []
  | xs, n :: ns => xs.take n :: splitSizes (xs.drop n) ns

/-- The ordered chunks `parallelize` dispatches: the collection is split
into `min n_jobs (length)` contiguous order-preserving chunks of
near-equal size — never more chunks (hence never more workers) than there
are elements. -/
def mkChunks {α : Type} (xs : List α) (n_jobs : Nat) : List (List α) :=
  splitSizes xs (chunkSizes xs.length (min n_jobs xs.length))

/-- Workers completing in schedule order: each schedule entry names a
chunk; its worker returns the callback's result for that chunk, tagged
with the chunk index. -/
def runSchedule {α β : Type} (chunks : List (List α)) (f : List α → List β)
    (σ : List Nat) : List (Nat × List β) :=
  σ.filterMap (fun i => (chunks.get? i).map (fun ch => (i, f ch)))

/-- Reassembly: per-chunk results are collected back in original chunk
order, whatever order the workers completed in, and concatenated (the
default extractor). -/
def reassemble {β : Type} (results : List (Nat × List β)) (k : Nat) : List β :=
  ((List.range k).filterMap (fun i => results.lookup i)).flatten

/-- Modelled from the spec: `parallelize` from
`cellrank._utils._parallelize` (implementation absent from the snapshot;
behaviour pinned by `TestParallelize` in `tests/test_utils.py`).  Splits
the collection into `min n_jobs (length)` ordered chunks, dispatches each
chunk to one worker, and reassembles the per-chunk results in original
chunk order under the completion order `schedule`; progress reporting is a
side channel with no effect on the result and is not modelled. -/
def parallelize {α β : Type} (callback : List α → List β) (collection : List α)
    (n_jobs : Nat) (schedule : List Nat) : List β :=
  reassemble (runSchedule (mkChunks collection n_jobs) callback schedule)
    (mkChunks collection n_jobs).length

theorem length_chunkSizes : ∀ (k n : Nat), (chunkSizes n k).length = k := by
  intro k
  induction k with
  | zero => intro n; rfl
  | succ k ih => intro n; simp [chunkSizes, ih]

theorem sum_chunkSizes : ∀ (k n : Nat), (chunkSizes n (k + 1)).sum = n := by
  intro k
  induction k with
  | zero => intro n; simp [chunkSizes]
  | succ k ih =>
    intro n
    have hle : (n + (k + 1)) / (k + 1 + 1) ≤ n := by
      have hmul : n ≤ (k + 2) * n := Nat.le_mul_of_pos_left n (by omega)
      exact (Nat.div_le_iff_le_mul_add_pred (by omega : 0 < k + 2)).mpr (by omega)
    rw [chunkSizes, List.sum_cons, ih]
    omega

theorem length_splitSizes {α : Type} : ∀ (ns : List Nat) (xs : List α),
    (splitSizes xs ns).length = ns.length := by
  intro ns
  induction ns with
  | nil => intro xs; rfl
  | cons n ns ih => intro xs; simp [splitSizes, ih]

theorem flatten_splitSizes {α : Type} : ∀ (ns : List Nat) (xs : List α),
    ns.sum = xs.length → (splitSizes xs ns).flatten = xs := by
  intro ns
  induction ns with
  | nil =>
    intro xs h
    simp only [List.sum_nil] at h
    rw [splitSizes, List.flatten_nil]
    exact (List.length_eq_zero.mp h.symm).symm
  | cons n ns ih =>
    intro xs h
    simp only [List.sum_cons] at h
    have hn : n ≤ xs.length := by omega
    have hrest : ns.sum = (xs.drop n).length := by
      rw [List.length_drop]
      omega
    simp only [splitSizes, List.flatten_cons, ih (xs.drop n) hrest]
    exact List.take_append_drop n xs

theorem length_mkChunks {α : Type} (xs : List α) (n_jobs : Nat) :
    (mkChunks xs n_jobs).length = min n_jobs xs.length := by
  simp [mkChunks, length_splitSizes, length_chunkSizes]

theorem flatten_mkChunks {α : Type} (xs : List α) (n_jobs : Nat) (h : n_jobs ≠ 0) :
    (mkChunks xs n_jobs).flatten = xs := by
  cases hx : xs with
  | nil => simp [mkChunks, Nat.min_zero, chunkSizes, splitSizes]
  | cons a t =>
    rw [← hx]
    have hpos : 0 < min n_jobs xs.length := by
      rw [hx]
      simp only [List.length_cons]
      omega
    obtain ⟨k, hk⟩ := Nat.exists_eq_succ_of_ne_zero (Nat.pos_iff_ne_zero.mp hpos)
    unfold mkChunks
    rw [hk]
    exact flatten_splitSizes _ xs (sum_chunkSizes k xs.length)

theorem lookup_runSchedule {α β : Type} (chunks : List (List α)) (f : List α → List β) :
    ∀ (σ : List Nat) (i : Nat) (ch : List α), i ∈ σ → chunks.get? i = some ch →
      (runSchedule chunks f σ).lookup i = some (f ch) := by
  intro σ
  induction σ with
  | nil => intro i ch hi; cases hi
  | cons j rest ih =>
    intro i ch hi hch
    cases hj : chunks.get? j with
    | none =>
      have hij : i ≠ j := by
        intro h
        rw [h, hj] at hch
        cases hch
      have : i ∈ rest := by
        rcases List.mem_cons.mp hi with h | h
        · exact absurd h hij
        · exact h
      simp only [runSchedule, List.filterMap_cons, hj, Option.map_none']
      exact ih i ch this hch
    | some cj =>
      simp only [runSchedule, List.filterMap_cons, hj, Option.map_some']
      by_cases hij : i = j
      · subst hij
        rw [hj] at hch
        cases hch
        simp [List.lookup]
      · have hmem : i ∈ rest := by
          rcases List.mem_cons.mp hi with h | h
          · exact absurd h hij
          · exact h
        rw [List.lookup]
        have : (i == j) = false := by
          simp [hij]
        rw [this]
        exact ih i ch hmem hch

theorem filterMap_lookup_all {β : Type} (results : List (Nat × List β)) (g : Nat → List β) :
    ∀ (l : List Nat), (∀ i ∈ l, results.lookup i = some (g i)) →
      l.filterMap (fun i => results.lookup i) = l.map g := by
  intro l
  induction l with
  | nil => intro _; rfl
  | cons a t ih =>
    intro h
    simp only [List.filterMap_cons, h a (List.mem_cons_self a t), List.map_cons]
    rw [ih (fun i hi => h i (List.mem_cons_of_mem a hi))]

theorem get?_eq_some_getD {γ : Type} : ∀ (l : List γ) (i : Nat) (d : γ), i < l.length →
    l.get? i = some (l.getD i d) := by
  intro l
  induction l with
  | nil => intro i d h; cases h
  | cons a t ih =>
    intro i d h
    cases i with
    | zero => rfl
    | succ n =>
      simp only [List.length_cons, Nat.succ_lt_succ_iff] at h
      simpa using ih n d h

theorem map_apply_getD_range {γ δ : Type} (F : List γ → δ) : ∀ (L : List (List γ)),
    (List.range L.length).map (fun i => F (L.getD i [])) = L.map F := by
  intro L
  induction L with
  | nil => rfl
  | cons a t ih =>
    simp only [List.length_cons, List.range_succ_eq_map, List.map_cons, List.map_map,
      List.getD_cons_zero]
    refine congrArg (fun r => F a :: r) ?_
    have hcomp : ((fun i => F ((a :: t).getD i [])) ∘ Nat.succ) =
        (fun i => F (t.getD i [])) := by
      funext i
      simp [Function.comp, List.getD_cons_succ]
    rw [hcomp, ih]

/-- C9: `parallelize` creates exactly `min n_jobs (collection length)`
chunks — never more workers than chunks, never more chunks than elements —
and for every completion order of the workers (any permutation of the
chunk indices) the reassembled result equals the per-row map in original
collection order. -/
theorem parallelize_bounded_workers_and_order {α β : Type}
    (collection : List α) (n_jobs : Nat) (g : α → β) (σ : List Nat)
    (hj : 1 ≤ n_jobs) (hσ : σ.Perm (List.range (mkChunks collection n_jobs).length)) :
    (mkChunks collection n_jobs).length = min n_jobs collection.length ∧
    parallelize (List.map g) collection n_jobs σ = collection.map g := by
  refine ⟨length_mkChunks collection n_jobs, ?_⟩
  unfold parallelize reassemble
  have hlook : ∀ i ∈ List.range (mkChunks collection n_jobs).length,
      (runSchedule (mkChunks collection n_jobs) (List.map g) σ).lookup i =
        some (List.map g ((mkChunks collection n_jobs).getD i [])) := by
    intro i hi
    have hilt := List.mem_range.mp hi
    exact lookup_runSchedule (mkChunks collection n_jobs) (List.map g) σ i
      ((mkChunks collection n_jobs).getD i [])
      (hσ.mem_iff.mpr hi)
      (get?_eq_some_getD (mkChunks collection n_jobs) i [] hilt)
  rw [filterMap_lookup_all _ _ _ hlook]
  rw [map_apply_getD_range (List.map g) (mkChunks collection n_jobs)]
  rw [← List.map_flatten, flatten_mkChunks collection n_jobs (by omega)]

/-- Witness for C9 at the inputs of
`TestParallelize.test_more_jobs_than_work`: three rows, four requested
jobs, a per-row constant worker and the completion order 2, 0, 1. -/
theorem parallelize_bounded_workers_and_order_witness :
    (mkChunks ([[10], [20], [30]] : List (List Nat)) 4).length =
      min 4 ([[10], [20], [30]] : List (List Nat)).length ∧
    parallelize (List.map (fun _ => (42 : Nat))) ([[10], [20], [30]] : List (List Nat)) 4
        [2, 0, 1] =
      ([[10], [20], [30]] : List (List Nat)).map (fun _ => (42 : Nat)) :=
  parallelize_bounded_workers_and_order [[10], [20], [30]] 4 (fun _ => 42) [2, 0, 1]
    (by decide) (by decide)
